import Mathlib

/-!
Verification of the inventory-cost sync pipeline: a shallow embedding of
the decode / normalize / aggregate core of `scrape_markov_inventory.py`
and of the CLI driver `main.py`, with theorems settling the specification
claims about them.  Python floats are modelled as exact rationals; Python
exceptions are modelled with `Except`; Python dicts are modelled as
insertion-ordered association lists.
-/

deriving instance DecidableEq for Except

namespace Markov

/-- Python exceptions that the embedded code can raise. -/
inductive PyErr where
  | keyError
  | valueError
  | zeroDivisionError
  | indexError
  | nameError
deriving DecidableEq

/-- A flat row: a Python dict from column caption (which may be `None`,
since `col.get('Caption')` may be absent) to the decoded string value.
Kept as an insertion-ordered association list with unique keys. -/
def FlatRow : Type := List (Option String × String)

instance : DecidableEq FlatRow := by
  unfold FlatRow
  infer_instance

/-- Python dict lookup `d.get(k)`: first (and only) binding of the key. -/
def dictGet : FlatRow → Option String → Option String
  | [], _ => none
  | (k0, v0) :: rest, k => if k0 = k then some v0 else dictGet rest k

/-- Python dict assignment `d[k] = v`: overwrite in place if the key is
present (keeping its position), else append. -/
def dictSet : FlatRow → Option String → String → FlatRow
  | [], k, v => [(k, v)]
  | (k0, v0) :: rest, k, v =>
    if k0 = k then (k0, v) :: rest else (k0, v0) :: dictSet rest k v

/-- Value of a run of decimal digit characters. -/
def digitsToNat (cs : List Char) : ℕ :=
  cs.foldl (fun a c => a * 10 + (c.toNat - 48)) 0

/-- Models Python `float(s)` on plain decimal literals: optional sign,
integer digits, optional fractional part.  `none` models the `ValueError`
Python raises when the string is not numeric. -/
def pyFloat (s : String) : Option ℚ :=
  let p : ℚ × List Char :=
    match s.data with
    | '-' :: r => (-1, r)
    | '+' :: r => (1, r)
    | cs => (1, cs)
  let ip := p.2.takeWhile Char.isDigit
  match p.2.dropWhile Char.isDigit with
  | [] => if ip.isEmpty then none else some (p.1 * (digitsToNat ip : ℚ))
  | '.' :: fr =>
    if fr.all Char.isDigit && !(ip.isEmpty && fr.isEmpty) then
      some (p.1 * ((digitsToNat ip : ℚ) + (digitsToNat fr : ℚ) / (10 ^ fr.length : ℚ)))
    else none
  | _ => none

/-- Python string slice `s[:n]` (by characters). -/
def strTake (s : String) (n : ℕ) : String := ⟨s.data.take n⟩

/-- Python `s.startswith(pre)`. -/
def strStartsWith (s pre : String) : Bool :=
  decide (s.data.take pre.data.length = pre.data)

/-- Python list indexing `l[v]` with negative-index wrap-around;
`none` models the `IndexError` Python raises when out of range. -/
def pyIndex (l : List String) (v : ℤ) : Option String :=
  if 0 ≤ v then l[v.toNat]?
  else if 0 ≤ (l.length : ℤ) + v then l[((l.length : ℤ) + v).toNat]?
  else none

/-- One entry of `column_mappings`: `{'name': col.get('Caption'),
'dataId': col.get('DataId')}`. -/
structure ColMap where
  caption : Option String
  dataId : Option String
deriving DecidableEq

/-- The `EncodeMaps` dict: `dataId` to the dictionary of decoded values. -/
def EncMaps : Type := List (String × List String)

instance : DecidableEq EncMaps := by
  unfold EncMaps
  infer_instance

/-- Lookup in `EncodeMaps` (`data_id in encode_maps` plus access). -/
def emFind : EncMaps → String → Option (List String)
  | [], _ => none
  | (k, v) :: rest, d => if k = d then some v else emFind rest d

/-- One step of the inner decode loop (`scrape_markov_inventory.py`
lines 152-166) for position `iv.1` holding index value `iv.2`: returns
the `(caption, decoded value)` field to add, or `none` when the step is
a `continue` (sentinel `-1`, position beyond the columns, `dataId`
absent or not in `encode_maps`, index `value >= len`, or an
`IndexError` caught by the `try/except`). -/
def resolveAt (cm : List ColMap) (em : EncMaps) (iv : ℕ × ℤ) : Option (Option String × String) :=
  if iv.2 = -1 then none
  else
    match cm[iv.1]? with
    | none => none
    | some c =>
      match c.dataId with
      | none => none
      | some d =>
        match emFind em d with
        | none => none
        | some dict =>
          if iv.2 < (dict.length : ℤ) then
            match pyIndex dict iv.2 with
            | some s => some (c.caption, s)
            | none => none
          else none

/-- One iteration of the decode loop: add the resolved field (if any)
to the flat row under construction. -/
def decodeStep (cm : List ColMap) (em : EncMaps) (obj : FlatRow) (iv : ℕ × ℤ) : FlatRow :=
  match resolveAt cm em iv with
  | none => obj
  | some f => dictSet obj f.1 f.2

/-- Decode one parsed row array into a flat row
(`scrape_markov_inventory.py` lines 151-166). -/
def decodeRow (arr : List ℤ) (cm : List ColMap) (em : EncMaps) : FlatRow :=
  (arr.enum).foldl (decodeStep cm em) []

/-- The fixed owner table (`owner_map`). -/
def ownerMap (s : String) : Option String :=
  if s = "4" then some "SHOTTYS"
  else if s = "100314" then some "MARKETING"
  else if s = "100374" then some "IMPACKFUL"
  else none

/-- Owner remap step (`scrape_markov_inventory.py` lines 167-171): replace
the `Owner` value in place when it is in the table, else leave the row
unchanged. -/
def remapOwner (obj : FlatRow) : FlatRow :=
  match dictGet obj (some "Owner") with
  | none => obj
  | some ow =>
    match ownerMap ow with
    | none => obj
    | some name => dictSet obj (some "Owner") name

/-- The filter condition of line 175:
`'Date' in obj and obj['Date'].startswith(date_now) and obj['Owner'] in
['SHOTTYS', 'IMPACKFUL']` with Python short-circuit evaluation; accessing
`obj['Owner']` raises `KeyError` when the key is absent. -/
def keepRow (dateNow : String) (obj : FlatRow) : Except PyErr Bool :=
  match dictGet obj (some "Date") with
  | none => .ok false
  | some dt =>
    if strStartsWith dt dateNow then
      match dictGet obj (some "Owner") with
      | none => .error .keyError
      | some ow => .ok (decide (ow = "SHOTTYS" ∨ ow = "IMPACKFUL"))
    else .ok false

/-- The first row loop (lines 142-176) over already-decoded flat rows:
remap the owner, filter by date and owner, collect the kept rows, and
track the loop variable `obj` (the last processed row), which lines
183 and 175 of the source read. -/
def filterLoop (dateNow : String) : List FlatRow → List FlatRow → Option FlatRow →
    Except PyErr (List FlatRow × Option FlatRow)
  | [], acc, lastObj => .ok (acc, lastObj)
  | r :: rest, acc, _ =>
    let obj := remapOwner r
    match keepRow dateNow obj with
    | .error e => .error e
    | .ok true => filterLoop dateNow rest (acc ++ [obj]) (some obj)
    | .ok false => filterLoop dateNow rest acc (some obj)

/-- The numeric field derivation of lines 185-186:
`float(d.get(k, 0)) if d.get(k) else 0`.  An absent key or a falsy
(empty) string yields `0`; a truthy string is passed to `float`, which
raises `ValueError` when it does not parse. -/
def numField (d : FlatRow) (k : String) : Except PyErr ℚ :=
  match dictGet d (some k) with
  | none => .ok 0
  | some s =>
    if s = "" then .ok 0
    else
      match pyFloat s with
      | some q => .ok q
      | none => .error .valueError

/-- One aggregated/candidate inventory record (the dict of lines
190-201), fields in source order: key, date, item, area, qty,
actual_value, actual_unit_cost, gl_group, type, unit. -/
structure Record where
  key : String
  date : String
  item : String
  area : Option String
  qty : ℚ
  actual_value : ℚ
  actual_unit_cost : ℚ
  gl_group : Option String
  type : String
  unit : String
deriving DecidableEq

/-- Shape one kept row into a candidate record (lines 181-201).
`lastOwner` is the value of `obj['Owner']` for the stale loop variable
`obj` that line 183 interpolates into the composite key; every other
field is derived from the row `d` itself. -/
def shapeItem (lastOwner : String) (d : FlatRow) : Except PyErr Record :=
  match numField d "Qty" with
  | .error e => .error e
  | .ok qty =>
    match numField d "ActualValue" with
    | .error e => .error e
    | .ok av =>
      let itemCode := (dictGet d (some "ItemCode")).getD ""
      let sublot := (dictGet d (some "Sublot")).getD "0"
      let date := strTake ((dictGet d (some "Date")).getD "") 10
      let cost : ℚ := if qty ≠ 0 ∧ av ≠ 0 then av / qty else 0
      .ok (Record.mk
        (itemCode ++ "-" ++ sublot ++ "-" ++ lastOwner ++ "-" ++ date)
        date itemCode (dictGet d (some "Owner")) qty av cost
        (dictGet d (some "GLGroup"))
        ((dictGet d (some "Type")).getD "")
        ((dictGet d (some "Unit")).getD ""))

/-- Shape every kept row, stopping at the first raised exception. -/
def shapeList (lastOwner : String) : List FlatRow → Except PyErr (List Record)
  | [] => .ok []
  | d :: rest =>
    match shapeItem lastOwner d with
    | .error e => .error e
    | .ok r =>
      match shapeList lastOwner rest with
      | .error e => .error e
      | .ok rs => .ok (r :: rs)

/-- The shaping loop of lines 179-201.  When `output` is empty the loop
body never runs, so nothing is evaluated; otherwise line 183 reads
`obj['Owner']` from the stale loop variable: `NameError` if the first
loop never bound `obj`, `KeyError` if that last row has no `Owner`. -/
def shapeAll (lastObj : Option FlatRow) (output : List FlatRow) : Except PyErr (List Record) :=
  match output with
  | [] => .ok []
  | _ :: _ =>
    match lastObj with
    | none => .error .nameError
    | some obj =>
      match dictGet obj (some "Owner") with
      | none => .error .keyError
      | some ow => shapeList ow output

/-- Normalizer over decoded flat rows: remap + filter (lines 142-176)
then shape (lines 179-201). -/
def processRows (dateNow : String) (rows : List FlatRow) : Except PyErr (List Record) :=
  match filterLoop dateNow rows [] none with
  | .error e => .error e
  | .ok (output, lastObj) => shapeAll lastObj output

/-- Merge a later candidate into the accumulated record with the same
key (lines 208-210): sum `qty` and `actual_value`, then recompute
`actual_unit_cost = actual_value / qty`, which raises
`ZeroDivisionError` when the summed `qty` is zero (no guard in the
source). -/
def mergeRecord (r item : Record) : Except PyErr Record :=
  let q := r.qty + item.qty
  let av := r.actual_value + item.actual_value
  if q = 0 then .error .zeroDivisionError
  else .ok (Record.mk r.key r.date r.item r.area q av (av / q)
    r.gl_group r.type r.unit)

/-- One step of the aggregation loop (lines 205-213) on the
insertion-ordered dict `aggregated`, modelled as a list with unique
keys: merge into the existing record with the same key, else append. -/
def aggInsert : List Record → Record → Except PyErr (List Record)
  | [], item => .ok [item]
  | r :: rest, item =>
    if r.key = item.key then
      match mergeRecord r item with
      | .error e => .error e
      | .ok m => .ok (m :: rest)
    else
      match aggInsert rest item with
      | .error e => .error e
      | .ok rest1 => .ok (r :: rest1)

/-- The aggregation loop body over all candidates. -/
def aggLoop (acc : List Record) : List Record → Except PyErr (List Record)
  | [] => .ok acc
  | item :: rest =>
    match aggInsert acc item with
    | .error e => .error e
    | .ok acc1 => aggLoop acc1 rest

/-- Aggregate candidates by composite key (lines 204-215); the output
order is first-seen order of distinct keys, as for
`list(aggregated.values())`. -/
def aggregate (items : List Record) : Except PyErr (List Record) :=
  aggLoop [] items

/-- A key of the `Data` dict inside the first slice.  The source keeps a
key only when it textually starts with `[` and `json.loads` succeeds
(lines 143-149); we abstract the textual parse into the three possible
outcomes: a parsed integer array, a `[`-prefixed key that fails to
parse, a key not starting with `[`. -/
inductive SliceKey where
  | arr (a : List ℤ)
  | arrBad
  | other
deriving DecidableEq

/-- JSON object `{'Caption': ..., 'DataId': ...}` inside
`ViewModel.Columns`; both fields read with `.get`, hence optional. -/
structure ColumnJson where
  caption : Option String
  dataId : Option String
deriving DecidableEq

/-- One element of the `Slices` array; its `Data` dict is read with
`.get('Data', {})`. -/
structure SliceJson where
  data : Option (List SliceKey)
deriving DecidableEq

/-- The `DataStorageDTO` section, fields read with `.get`. -/
structure DataStorageJson where
  slices : Option (List SliceJson)
  encodeMaps : Option EncMaps
deriving DecidableEq

/-- The `ItemData` section. -/
structure ItemDataJson where
  dataStorageDTO : Option DataStorageJson
deriving DecidableEq

/-- The `ViewModel` section. -/
structure ViewModelJson where
  columns : Option (List ColumnJson)
deriving DecidableEq

/-- The dashboard payload with its optional top-level sections, as read
by lines 123-127 of the source (every access uses `.get` with an empty
default). -/
structure Payload where
  itemData : Option ItemDataJson
  viewModel : Option ViewModelJson
deriving DecidableEq

/-- The whole `transform_dashboard_data` pipeline on a payload, for a
given reference date `dateNow`: extract the sections with their `.get`
defaults (only `data_storage.get('Slices', [{}])[0]` can raise, an
`IndexError` on a present-but-empty `Slices` list), decode each parsed
row key, then normalize and aggregate. -/
def transform (dateNow : String) (p : Payload) : Except PyErr (List Record) :=
  let dataStorage := ((p.itemData.getD ⟨none⟩).dataStorageDTO).getD ⟨none, none⟩
  match dataStorage.slices.getD [⟨none⟩] with
  | [] => .error .indexError
  | s :: _ =>
    let slicesData := s.data.getD []
    let encodeMaps := dataStorage.encodeMaps.getD []
    let columnMappings :=
      (((p.viewModel.getD ⟨none⟩).columns).getD []).map
        (fun c => ColMap.mk c.caption c.dataId)
    let rows := slicesData.filterMap (fun sk =>
      match sk with
      | SliceKey.arr a => some (decodeRow a columnMappings encodeMaps)
      | SliceKey.arrBad => none
      | SliceKey.other => none)
    match processRows dateNow rows with
    | .error e => .error e
    | .ok recs => aggregate recs

/-- Outcome of one effectful collaborator step in `main.py`: a returned
value, a raised `Exception`, or a `KeyboardInterrupt`. -/
inductive Outcome (α : Type) where
  | ok (a : α)
  | raise
  | interrupt
deriving DecidableEq

/-- The environment `main` runs in: the outcomes of the database
connection check, the scrape, and the upload. -/
structure MainEnv where
  testConn : Outcome Bool
  scrape : Outcome (List Record)
  upload : Outcome ℕ
deriving DecidableEq

/-- Exit code of `main()` in `main.py` (lines 20-59): a failed
connection check returns 1; an empty scrape returns 0 without touching
the upload step; otherwise the upload result decides; any raised
`Exception` gives 1 and a `KeyboardInterrupt` gives 130. -/
def main (env : MainEnv) : ℕ :=
  match env.testConn with
  | .raise => 1
  | .interrupt => 130
  | .ok false => 1
  | .ok true =>
    match env.scrape with
    | .raise => 1
    | .interrupt => 130
    | .ok data =>
      if data.isEmpty then 0
      else
        match env.upload with
        | .raise => 1
        | .interrupt => 130
        | .ok _ => 0

/-! Spec-side comparison definitions, used only in theorem statements. -/

/-- Value of the last field with a given name in a list of resolved
fields (spec wording for the overwrite behaviour of repeated column
names). -/
def lastFieldValue (fields : List (Option String × String)) (k : Option String) : Option String :=
  fields.foldl (fun acc f => if f.1 = k then some f.2 else acc) none

/-- First candidate in a list carrying a given composite key (spec
wording: the first candidate seen for that key). -/
def firstWithKey : List Record → String → Option Record
  | [], _ => none
  | c :: rest, k => if c.key = k then some c else firstWithKey rest k

/-- The non-numeric fields of a record, in source order: date, item,
area, gl_group, type, unit. -/
def frame (r : Record) : String × String × Option String × Option String × String × String :=
  (r.date, r.item, r.area, r.gl_group, r.type, r.unit)

/-- Composite keys of a record list, in order. -/
def keysOf (l : List Record) : List String := l.map Record.key

/-- The payload is missing one of the expected top-level sections read
by lines 123-127 of the source: `ItemData`, `DataStorageDTO`, `Slices`,
`EncodeMaps`, or `ViewModel.Columns`. -/
def missingSection (p : Payload) : Prop :=
  p.itemData = none
  ∨ (∃ i, p.itemData = some i ∧ i.dataStorageDTO = none)
  ∨ (∃ i d, p.itemData = some i ∧ i.dataStorageDTO = some d ∧ d.slices = none)
  ∨ (∃ i d, p.itemData = some i ∧ i.dataStorageDTO = some d ∧ d.encodeMaps = none)
  ∨ p.viewModel = none
  ∨ (∃ v, p.viewModel = some v ∧ v.columns = none)

/-- The payload does not carry a present-but-empty `Slices` list (the
one shape on which `data_storage.get('Slices', [{}])[0]` raises an
`IndexError`, independently of any missing section). -/
def noEmptySlices (p : Payload) : Prop :=
  ∀ i d sl, p.itemData = some i → i.dataStorageDTO = some d → d.slices = some sl → sl ≠ []

/-! Concrete inputs used by counterexamples and witnesses. -/

/-- A decoded row that passes the filter: owner code 4 (SHOTTYS). -/
def c1row1 : FlatRow :=
  [(some "Date", "2024-01-02"), (some "Owner", "4"), (some "ItemCode", "X1"),
   (some "Qty", "10"), (some "ActualValue", "50")]

/-- A later decoded row that fails the date filter but leaves the loop
variable `obj` holding owner IMPACKFUL. -/
def c1row2 : FlatRow := [(some "Date", "1999-01-01"), (some "Owner", "100374")]

/-- The record the source actually produces for `c1row1`: its key
carries the stale owner of `c1row2`. -/
def c1rec : Record :=
  Record.mk "X1-0-IMPACKFUL-2024-01-02" "2024-01-02" "X1" (some "SHOTTYS")
    10 50 5 none "" ""

/-- A first candidate with qty 1. -/
def c2recA : Record := Record.mk "K" "2024-01-02" "X1" (some "SHOTTYS") 1 2 2 none "" ""

/-- A duplicate-key candidate with qty -1, so the accumulated qty is 0. -/
def c2recB : Record := Record.mk "K" "2024-01-02" "X1" (some "SHOTTYS") (-1) 3 0 none "" ""

/-- A duplicate-key candidate with qty 1 and value 4. -/
def c2recC : Record := Record.mk "K" "2024-01-02" "X1" (some "SHOTTYS") 1 4 4 none "" ""

/-- The merge of `c2recA` and `c2recC`. -/
def c2merged : Record := Record.mk "K" "2024-01-02" "X1" (some "SHOTTYS") 2 6 3 none "" ""

/-- A flat row whose Qty field is a non-numeric, non-empty string. -/
def c3row : FlatRow :=
  [(some "Date", "2024-01-02"), (some "Owner", "4"), (some "Qty", "abc")]

/-- A flat row whose Date matches the reference date but which has no
Owner field. -/
def c4row : FlatRow := [(some "Date", "2024-01-02")]

/-- A single column mapping with caption A and dataId d. -/
def c6cm : List ColMap := [ColMap.mk (some "A") (some "d")]

/-- Encode maps giving dataId d a two-element dictionary. -/
def c6em : EncMaps := [("d", ["x", "y"])]

/-- Two same-key candidates whose merge is `c7merged`. -/
def c7recA : Record := Record.mk "K7" "2024-01-02" "Y1" (some "SHOTTYS") 1 2 2 none "T" "EA"

/-- Second candidate for key K7. -/
def c7recB : Record := Record.mk "K7" "2024-01-02" "Y1" (some "SHOTTYS") 1 4 4 none "T" "EA"

/-- The aggregate of `c7recA` and `c7recB`. -/
def c7merged : Record := Record.mk "K7" "2024-01-02" "Y1" (some "SHOTTYS") 2 6 3 none "T" "EA"

/-- First candidate for key K8; its non-numeric fields must survive. -/
def c8recA : Record := Record.mk "K8" "2024-01-02" "Z1" (some "SHOTTYS") 1 2 2 (some "G1") "T1" "EA"

/-- Later candidate for key K8 with different non-numeric fields. -/
def c8recB : Record := Record.mk "K8" "2024-01-03" "Z2" (some "IMPACKFUL") 1 4 4 (some "G2") "T2" "CS"

/-- The aggregate of `c8recA` and `c8recB`: frame fields from `c8recA`. -/
def c8merged : Record := Record.mk "K8" "2024-01-02" "Z1" (some "SHOTTYS") 2 6 3 (some "G1") "T1" "EA"

/-! Theorems.  The `Rat` arithmetic operations are made semireducible in
this section so that concrete runs of the embedded code can be settled
by kernel evaluation. -/

section ConcreteRuns

attribute [local semireducible] Rat.add Rat.mul Rat.inv Rat.sub Rat.ofScientific

/-- C1 (counterexample to the claim, exhibiting the code bug): on the
candidate obtained from `c1row1`, the source builds the composite key
from `obj['Owner']`, the stale loop variable left over from the decode
loop (here the owner of `c1row2`, IMPACKFUL), not from the row's own
remapped Owner (SHOTTYS, which is the record's `area`).  So the key is
`X1-0-IMPACKFUL-2024-01-02` and differs from
`itemCode-sublot-area-date`, refuting the claim. -/
theorem C1_composite_key_stale_owner :
    processRows "2024-01-02" [c1row1, c1row2] = .ok [c1rec]
    ∧ c1rec.area = some "SHOTTYS"
    ∧ c1rec.key = "X1-0-IMPACKFUL-2024-01-02"
    ∧ c1rec.key ≠ c1rec.item ++ "-" ++ "0" ++ "-" ++ "SHOTTYS" ++ "-" ++ c1rec.date := by
  refine ⟨by decide, rfl, rfl, by decide⟩

/-- C2 (counterexample): merging a second candidate whose qty cancels
the accumulated qty to zero makes the aggregation raise
`ZeroDivisionError`; there is no guard setting `actualUnitCost` to 0. -/
theorem C2_cex_zero_qty_raises :
    aggregate [c2recA, c2recB] = .error .zeroDivisionError := by decide

/-- C3 (counterexample): a row passing the filter whose `Qty` field is
the non-numeric string abc makes normalization raise `ValueError`;
the candidate qty is not resolved to 0. -/
theorem C3_cex_nonnumeric_raises :
    processRows "2024-01-02" [c3row] = .error .valueError := by decide

/-- C4 (counterexample): a flat row whose `Date` matches the reference
date but which has no `Owner` field makes the filter raise `KeyError`
(line 175 reads `obj['Owner']` unconditionally after the date check);
the row is not excluded silently. -/
theorem C4_cex_missing_owner_raises :
    processRows "2024-01-02" [c4row] = .error .keyError := by decide

/-- C5 (counterexample): a payload missing every expected top-level
section does not raise; the transform silently produces an empty output
because every section access carries an empty default. -/
theorem C5_cex_empty_payload_ok :
    transform "2024-01-02" (Payload.mk none none) = .ok [] := by decide

/-- C6 (counterexample): the index value -2, which is neither the
sentinel -1 nor a valid position 0 ≤ i < 2 of the two-element
dictionary, is not skipped: `value < len(...)` passes and Python's
negative indexing resolves it to entry 0, so the decoder adds the
field. -/
theorem C6_cex_negative_index_resolves :
    decodeRow [-2] c6cm c6em = [(some "A", "x")]
    ∧ (-2 : ℤ) ≠ -1 ∧ ¬ (0 ≤ (-2 : ℤ)) := by
  refine ⟨by decide, by decide, by decide⟩

end ConcreteRuns

/-- Python dict assignment followed by lookup: the assigned key reads
back the new value, every other key is unchanged. -/
theorem dictGet_dictSet (m : FlatRow) (k : Option String) (v : String) (q : Option String) :
    dictGet (dictSet m k v) q = if k = q then some v else dictGet m q := by
  induction m with
  | nil => simp [dictSet, dictGet]
  | cons hd t ih =>
    obtain ⟨k0, v0⟩ := hd
    by_cases hk : k0 = k
    · subst hk
      by_cases hq : k0 = q <;> simp [dictSet, dictGet, hq]
    · by_cases hq : k0 = q
      · subst hq
        have hkq : ¬ k = k0 := fun h => hk h.symm
        simp [dictSet, dictGet, hk, hkq]
      · simp [dictSet, dictGet, hk, hq, ih]

/-- Running the decode fold from any partial row: the value of a key is
the last resolved field with that name, falling back to the partial
row. -/
theorem foldl_decodeStep_get (cm : List ColMap) (em : EncMaps) (k : Option String) :
    ∀ (l : List (ℕ × ℤ)) (obj : FlatRow),
    dictGet (l.foldl (decodeStep cm em) obj) k =
      (l.filterMap (resolveAt cm em)).foldl
        (fun acc f => if f.1 = k then some f.2 else acc) (dictGet obj k) := by
  intro l
  induction l with
  | nil => intro obj; simp
  | cons iv rest ih =>
    intro obj
    cases hres : resolveAt cm em iv with
    | none =>
      simp only [List.foldl_cons, List.filterMap_cons, hres, decodeStep]
      exact ih obj
    | some f =>
      simp only [List.foldl_cons, List.filterMap_cons, hres, decodeStep]
      rw [ih, dictGet_dictSet]

/-- C10: in a decoded flat row, each column name maps to the decoded
value of the LAST position of the row array that resolves to that name
(later duplicate columns overwrite earlier ones), and to nothing when
no position resolves to it. -/
theorem C10_duplicate_names_last_wins (arr : List ℤ) (cm : List ColMap) (em : EncMaps)
    (k : Option String) :
    dictGet (decodeRow arr cm em) k =
      lastFieldValue ((arr.enum).filterMap (resolveAt cm em)) k := by
  unfold decodeRow lastFieldValue
  rw [foldl_decodeStep_get]
  rfl

/-- Python list indexing succeeds exactly on indices in
`[-len, len)`. -/
theorem pyIndex_isSome (l : List String) (v : ℤ) :
    (pyIndex l v).isSome = true ↔ (-(l.length : ℤ) ≤ v ∧ v < (l.length : ℤ)) := by
  unfold pyIndex
  by_cases h1 : 0 ≤ v
  · rw [if_pos h1, Option.isSome_iff_ne_none]
    simp only [ne_eq, List.getElem?_eq_none_iff, Nat.not_le]
    omega
  · rw [if_neg h1]
    by_cases h2 : 0 ≤ (l.length : ℤ) + v
    · rw [if_pos h2, Option.isSome_iff_ne_none]
      simp only [ne_eq, List.getElem?_eq_none_iff, Nat.not_le]
      omega
    · rw [if_neg h2]
      simp only [Option.isSome_none, Bool.false_eq_true, false_iff, not_and, not_lt]
      omega

/-- C6 (amended): the decoder adds a field for position `i` holding
index value `v` exactly when `v` is not the sentinel -1, position `i`
has a column whose `dataId` is present in `encodeMaps`, and
`-len ≤ v < len` for that dictionary: besides the in-range
non-negative indices, negative indices down to `-len` also resolve,
through Python's negative indexing (the source only checks
`value < len` before subscripting).  Out-of-range indices (`v ≥ len`
or `v < -len`) are skipped. -/
theorem C6_field_added_iff (cm : List ColMap) (em : EncMaps) (i : ℕ) (v : ℤ) :
    (resolveAt cm em (i, v)).isSome = true ↔
      (v ≠ -1 ∧ ∃ c d dict, cm[i]? = some c ∧ c.dataId = some d ∧ emFind em d = some dict ∧
        -(dict.length : ℤ) ≤ v ∧ v < (dict.length : ℤ)) := by
  constructor
  · intro h
    unfold resolveAt at h
    by_cases hv : v = -1
    · simp [hv] at h
    · refine ⟨hv, ?_⟩
      rw [if_neg hv] at h
      cases hc : cm[i]? with
      | none => rw [hc] at h; simp at h
      | some c =>
        rw [hc] at h
        dsimp only at h
        cases hd : c.dataId with
        | none => rw [hd] at h; simp at h
        | some d =>
          rw [hd] at h
          dsimp only at h
          cases he : emFind em d with
          | none => rw [he] at h; simp at h
          | some dict =>
            rw [he] at h
            dsimp only at h
            by_cases hlt : v < (dict.length : ℤ)
            · rw [if_pos hlt] at h
              cases hp : pyIndex dict v with
              | none => rw [hp] at h; simp at h
              | some s =>
                have hs := (pyIndex_isSome dict v).mp (by simp [hp])
                exact ⟨c, d, dict, rfl, hd, he, hs.1, hlt⟩
            · rw [if_neg hlt] at h; simp at h
  · rintro ⟨hv, c, d, dict, hc, hd, he, hge, hlt⟩
    have hp : (pyIndex dict v).isSome = true := (pyIndex_isSome dict v).mpr ⟨hge, hlt⟩
    obtain ⟨s, hs⟩ := Option.isSome_iff_exists.mp hp
    simp [resolveAt, hv, hc, hd, he, hlt, hs]

/-- C4 (amended): the filter keeps a row exactly when its `Date` is
present, starts with the reference date, and its (already remapped)
`Owner` is present and exactly SHOTTYS or IMPACKFUL; but a row whose
`Date` matches while the `Owner` field is absent raises `KeyError`
instead of being excluded silently. -/
theorem C4_filter_characterization (dn : String) (obj : FlatRow) :
    (keepRow dn obj = .ok true ↔
      ∃ dt ow, dictGet obj (some "Date") = some dt ∧ strStartsWith dt dn = true ∧
        dictGet obj (some "Owner") = some ow ∧ (ow = "SHOTTYS" ∨ ow = "IMPACKFUL"))
    ∧ (keepRow dn obj = .error .keyError ↔
      ∃ dt, dictGet obj (some "Date") = some dt ∧ strStartsWith dt dn = true ∧
        dictGet obj (some "Owner") = none) := by
  unfold keepRow
  cases hd : dictGet obj (some "Date") with
  | none => simp
  | some dt =>
    dsimp only
    by_cases hs : strStartsWith dt dn = true
    · rw [if_pos hs]
      cases ho : dictGet obj (some "Owner") with
      | none => simp [hs]
      | some ow =>
        dsimp only
        constructor
        · constructor
          · intro h
            refine ⟨dt, ow, rfl, hs, rfl, ?_⟩
            have := congrArg (fun x => match x with | Except.ok b => b | _ => false) h
            simpa using of_decide_eq_true this
          · rintro ⟨dt1, ow1, hdt1, _, how1, hor⟩
            obtain rfl : dt = dt1 := by injection hdt1
            obtain rfl : ow = ow1 := by injection how1
            rw [decide_eq_true hor]
        · simp
    · rw [if_neg hs]
      constructor
      · simp [hs]
      · constructor
        · intro h; cases h
        · rintro ⟨dt1, hdt1, hs1, _⟩
          obtain rfl : dt = dt1 := by injection hdt1
          exact absurd hs1 hs

/-- C3 (amended): the numeric derivation for `Qty`/`ActualValue`
resolves to 0 when the field is absent or is the falsy empty string;
but a present non-empty string that does not parse as a number makes
normalization raise `ValueError` instead of resolving to 0. -/
theorem C3_numeric_parse_behavior (d : FlatRow) (k : String) :
    (dictGet d (some k) = none → numField d k = .ok 0)
    ∧ (dictGet d (some k) = some "" → numField d k = .ok 0)
    ∧ (∀ s, dictGet d (some k) = some s → s ≠ "" → pyFloat s = none →
        numField d k = .error .valueError) := by
  refine ⟨fun h => by simp [numField, h],
    fun h => by simp [numField, h],
    fun s hs hne hp => by simp [numField, hs, hne, hp]⟩

/-- C2 (amended): when the aggregator meets a candidate whose key is
already present, it sets `actual_unit_cost` to the accumulated
`actual_value` divided by the accumulated `qty`; the division is NOT
guarded, so a summed qty of exactly zero raises `ZeroDivisionError`
instead of yielding 0. -/
theorem C2_merge_division_unguarded (acc : List Record) (r item : Record)
    (h : r.key = item.key) :
    aggInsert (r :: acc) item =
      if r.qty + item.qty = 0 then .error .zeroDivisionError
      else .ok (Record.mk r.key r.date r.item r.area (r.qty + item.qty)
        (r.actual_value + item.actual_value)
        ((r.actual_value + item.actual_value) / (r.qty + item.qty))
        r.gl_group r.type r.unit :: acc) := by
  unfold aggInsert
  rw [if_pos h]
  unfold mergeRecord
  by_cases hq : r.qty + item.qty = 0
  · rw [if_pos hq, if_pos hq]
  · rw [if_neg hq, if_neg hq]

section ConcreteWitnesses

attribute [local semireducible] Rat.add Rat.mul Rat.inv Rat.sub Rat.ofScientific

/-- Witness for C2: a concrete merge where the summed qty is 2 and the
recomputed unit cost is 6/2 = 3. -/
theorem C2_merge_division_unguarded_witness :
    aggInsert [c2recA] c2recC = .ok [c2merged] := by
  have h := C2_merge_division_unguarded [] c2recA c2recC rfl
  rw [h]
  decide

/-- Witness for C3: the non-numeric Qty string abc raises, and an
absent Qty resolves to 0. -/
theorem C3_numeric_parse_behavior_witness :
    numField c3row "Qty" = .error .valueError ∧ numField c4row "Qty" = .ok 0 := by
  have h1 := C3_numeric_parse_behavior c3row "Qty"
  have h2 := C3_numeric_parse_behavior c4row "Qty"
  exact ⟨h1.2.2 "abc" (by decide) (by decide) (by decide), h2.1 (by decide)⟩

end ConcreteWitnesses

/-- A successful merge keeps the key and all non-numeric fields of the
accumulated record. -/
theorem mergeRecord_ok (r item m : Record) (h : mergeRecord r item = .ok m) :
    m.key = r.key ∧ frame m = frame r := by
  unfold mergeRecord at h
  by_cases hq : r.qty + item.qty = 0
  · rw [if_pos hq] at h; cases h
  · rw [if_neg hq] at h
    injection h with h
    subst h
    exact ⟨rfl, rfl⟩

/-- One aggregation step either merges into an existing key, leaving
the key sequence unchanged, or appends a fresh key. -/
theorem aggInsert_spec : ∀ (acc : List Record) (item : Record) (acc1 : List Record),
    aggInsert acc item = .ok acc1 →
    (keysOf acc1 = keysOf acc ∧ ∃ r ∈ acc, r.key = item.key) ∨
    (acc1 = acc ++ [item] ∧ ∀ r ∈ acc, r.key ≠ item.key) := by
  intro acc
  induction acc with
  | nil =>
    intro item acc1 h
    injection h with h
    subst h
    exact Or.inr ⟨rfl, by simp⟩
  | cons r rest ih =>
    intro item acc1 h
    by_cases hk : r.key = item.key
    · unfold aggInsert at h
      rw [if_pos hk] at h
      cases hm : mergeRecord r item with
      | error e => rw [hm] at h; cases h
      | ok m =>
        rw [hm] at h
        dsimp only at h
        injection h with h
        subst h
        obtain ⟨hkey, _⟩ := mergeRecord_ok r item m hm
        refine Or.inl ⟨?_, ⟨r, by simp, hk⟩⟩
        simp [keysOf, hkey]
    · unfold aggInsert at h
      rw [if_neg hk] at h
      cases hrec : aggInsert rest item with
      | error e => rw [hrec] at h; cases h
      | ok rest1 =>
        rw [hrec] at h
        dsimp only at h
        injection h with h
        subst h
        rcases ih item rest1 hrec with ⟨hkeys, s, hs, hsk⟩ | ⟨heq, hall⟩
        · refine Or.inl ⟨?_, ⟨s, by simp [hs], hsk⟩⟩
          simp only [keysOf, List.map_cons]
          exact congrArg (List.cons r.key) hkeys
        · subst heq
          refine Or.inr ⟨by simp, ?_⟩
          intro x hx
          rcases List.mem_cons.mp hx with rfl | hx
          · exact hk
          · exact hall x hx

/-- Inserting a candidate whose key is fresh appends it unchanged. -/
theorem aggInsert_fresh : ∀ (acc : List Record) (item : Record),
    (∀ r ∈ acc, r.key ≠ item.key) → aggInsert acc item = .ok (acc ++ [item]) := by
  intro acc
  induction acc with
  | nil => intro item _; rfl
  | cons r rest ih =>
    intro item h
    have hr : r.key ≠ item.key := h r (by simp)
    unfold aggInsert
    rw [if_neg hr, ih item (fun x hx => h x (by simp [hx]))]
    rfl

/-- The aggregation loop keeps the accumulated keys free of
duplicates. -/
theorem aggLoop_nodup : ∀ (items acc out : List Record),
    (keysOf acc).Nodup → aggLoop acc items = .ok out → (keysOf out).Nodup := by
  intro items
  induction items with
  | nil =>
    intro acc out hnd h
    injection h with h
    subst h
    exact hnd
  | cons item rest ih =>
    intro acc out hnd h
    unfold aggLoop at h
    cases hins : aggInsert acc item with
    | error e => rw [hins] at h; cases h
    | ok acc1 =>
      rw [hins] at h
      dsimp only at h
      refine ih acc1 out ?_ h
      rcases aggInsert_spec acc item acc1 hins with ⟨hk, _⟩ | ⟨heq, hfresh⟩
      · rwa [hk]
      · subst heq
        simp only [keysOf, List.map_append, List.map_cons, List.map_nil]
        rw [List.nodup_append]
        refine ⟨hnd, List.nodup_singleton _, ?_⟩
        intro a ha hb
        simp only [List.mem_singleton] at hb
        subst hb
        obtain ⟨x, hx, hxk⟩ := List.mem_map.mp ha
        exact hfresh x hx hxk

/-- Replaying the loop over a list of records with pairwise-distinct
keys, all fresh for the accumulator, appends them unchanged. -/
theorem aggLoop_replay : ∀ (out acc : List Record),
    (keysOf out).Nodup → (∀ r ∈ out, ∀ a ∈ acc, a.key ≠ r.key) →
    aggLoop acc out = .ok (acc ++ out) := by
  intro out
  induction out with
  | nil => intro acc _ _; simp [aggLoop]
  | cons r rest ih =>
    intro acc hnd hdisj
    simp only [keysOf, List.map_cons, List.nodup_cons] at hnd
    have h1 : aggInsert acc r = .ok (acc ++ [r]) :=
      aggInsert_fresh acc r (fun a ha => hdisj r (by simp) a ha)
    unfold aggLoop
    rw [h1]
    dsimp only
    have hnd1 : (keysOf rest).Nodup := hnd.2
    have hdisj1 : ∀ x ∈ rest, ∀ a ∈ acc ++ [r], a.key ≠ x.key := by
      intro x hx a ha
      rcases List.mem_append.mp ha with ha | ha
      · exact hdisj x (by simp [hx]) a ha
      · simp only [List.mem_singleton] at ha
        subst ha
        intro hcontra
        exact hnd.1 (by rw [hcontra]; exact List.mem_map_of_mem Record.key hx)
    rw [ih (acc ++ [r]) hnd1 hdisj1]
    simp

/-- C7: re-running the aggregator on its own output (each output record
as a singleton candidate) returns exactly that output, in the same
order. -/
theorem C7_aggregate_idempotent (l out : List Record) (h : aggregate l = .ok out) :
    aggregate out = .ok out := by
  have hnd : (keysOf out).Nodup := aggLoop_nodup l [] out (by simp [keysOf]) h
  have hrep := aggLoop_replay out [] hnd (by intro r _ a ha; simp at ha)
  simpa [aggregate] using hrep

/-- Each record of a successful insert result either comes from the
accumulator with key and non-numeric fields intact, or is the fresh
candidate itself. -/
theorem aggInsert_mem_src : ∀ (acc : List Record) (item : Record) (acc1 : List Record),
    aggInsert acc item = .ok acc1 → ∀ a ∈ acc1,
    (∃ b ∈ acc, b.key = a.key ∧ frame a = frame b) ∨
    (a = item ∧ ∀ b ∈ acc, b.key ≠ item.key) := by
  intro acc
  induction acc with
  | nil =>
    intro item acc1 h a ha
    injection h with h
    subst h
    simp only [List.mem_singleton] at ha
    subst ha
    exact Or.inr ⟨rfl, by simp⟩
  | cons r rest ih =>
    intro item acc1 h a ha
    by_cases hk : r.key = item.key
    · unfold aggInsert at h
      rw [if_pos hk] at h
      cases hm : mergeRecord r item with
      | error e => rw [hm] at h; cases h
      | ok m =>
        rw [hm] at h
        dsimp only at h
        injection h with h
        subst h
        rcases List.mem_cons.mp ha with rfl | ha
        · obtain ⟨hkey, hframe⟩ := mergeRecord_ok r item a hm
          exact Or.inl ⟨r, by simp, hkey.symm, hframe⟩
        · exact Or.inl ⟨a, by simp [ha], rfl, rfl⟩
    · unfold aggInsert at h
      rw [if_neg hk] at h
      cases hrec : aggInsert rest item with
      | error e => rw [hrec] at h; cases h
      | ok rest1 =>
        rw [hrec] at h
        dsimp only at h
        injection h with h
        subst h
        rcases List.mem_cons.mp ha with rfl | ha
        · exact Or.inl ⟨a, by simp, rfl, rfl⟩
        · rcases ih item rest1 hrec a ha with ⟨b, hb, hbk, hbf⟩ | ⟨rfl, hall⟩
          · exact Or.inl ⟨b, by simp [hb], hbk, hbf⟩
          · refine Or.inr ⟨rfl, ?_⟩
            intro b hb
            rcases List.mem_cons.mp hb with rfl | hb
            · exact hk
            · exact hall b hb

/-- A successful insert keeps a representative of every accumulated key
and gains one for the inserted candidate's key. -/
theorem aggInsert_keys_grow (acc : List Record) (item : Record) (acc1 : List Record)
    (h : aggInsert acc item = .ok acc1) :
    (∀ b ∈ acc, ∃ a ∈ acc1, a.key = b.key) ∧ (∃ a ∈ acc1, a.key = item.key) := by
  rcases aggInsert_spec acc item acc1 h with ⟨hkeys, r, hr, hrk⟩ | ⟨heq, _⟩
  · constructor
    · intro b hb
      have hmem : b.key ∈ keysOf acc1 := by
        rw [hkeys]; exact List.mem_map_of_mem _ hb
      obtain ⟨a, ha, hak⟩ := List.mem_map.mp hmem
      exact ⟨a, ha, hak⟩
    · have hmem : r.key ∈ keysOf acc1 := by
        rw [hkeys]; exact List.mem_map_of_mem _ hr
      obtain ⟨a, ha, hak⟩ := List.mem_map.mp hmem
      exact ⟨a, ha, hak.trans hrk⟩
  · subst heq
    constructor
    · intro b hb; exact ⟨b, by simp [hb], rfl⟩
    · exact ⟨item, by simp, rfl⟩

/-- Generalized first-seen-wins invariant of the aggregation loop:
every output record takes its key and non-numeric fields either from
the accumulator or from the FIRST candidate carrying its key. -/
theorem aggLoop_frame : ∀ (items acc out : List Record),
    aggLoop acc items = .ok out → ∀ r ∈ out,
    (∃ a ∈ acc, a.key = r.key ∧ frame r = frame a) ∨
    ((∀ a ∈ acc, a.key ≠ r.key) ∧
      ∃ c, firstWithKey items r.key = some c ∧ frame r = frame c) := by
  intro items
  induction items with
  | nil =>
    intro acc out h r hr
    injection h with h
    subst h
    exact Or.inl ⟨r, hr, rfl, rfl⟩
  | cons item rest ih =>
    intro acc out h r hr
    unfold aggLoop at h
    cases hins : aggInsert acc item with
    | error e => rw [hins] at h; cases h
    | ok acc1 =>
      rw [hins] at h
      dsimp only at h
      rcases ih acc1 out h r hr with ⟨a, ha, hak, haf⟩ | ⟨hnone, c, hc, hcf⟩
      · rcases aggInsert_mem_src acc item acc1 hins a ha with ⟨b, hb, hbk, hbf⟩ | ⟨rfl, hall⟩
        · exact Or.inl ⟨b, hb, hbk.trans hak, haf.trans hbf⟩
        · refine Or.inr ⟨?_, a, ?_, haf⟩
          · intro b hb
            rw [← hak]
            exact hall b hb
          · unfold firstWithKey
            rw [if_pos hak]
      · have hgrow := aggInsert_keys_grow acc item acc1 hins
        refine Or.inr ⟨?_, ?_⟩
        · intro b hb
          obtain ⟨a, ha, hak⟩ := hgrow.1 b hb
          intro hcontra
          exact hnone a ha (hak.trans hcontra)
        · obtain ⟨a, ha, hak⟩ := hgrow.2
          have hne : item.key ≠ r.key := by
            intro hcontra
            exact hnone a ha (hak.trans hcontra)
          refine ⟨c, ?_, hcf⟩
          unfold firstWithKey
          rw [if_neg hne]
          exact hc

/-- C8: every aggregated record's non-numeric fields (date, item, area,
gl_group, type, unit, collected by `frame`) are exactly those of the
FIRST candidate carrying its composite key; merging only touches qty,
actual_value and actual_unit_cost. -/
theorem C8_first_seen_frame (l out : List Record) (h : aggregate l = .ok out)
    (r : Record) (hr : r ∈ out) :
    (firstWithKey l r.key).map frame = some (frame r) := by
  rcases aggLoop_frame l [] out h r hr with ⟨a, ha, _⟩ | ⟨_, c, hc, hcf⟩
  · simp at ha
  · rw [hc]
    simp [hcf]

section ConcreteWitnesses2

attribute [local semireducible] Rat.add Rat.mul Rat.inv Rat.sub Rat.ofScientific

/-- Witness for C7: the aggregate of two same-key candidates is a
fixed point of the aggregator. -/
theorem C7_aggregate_idempotent_witness :
    aggregate [c7merged] = .ok [c7merged] :=
  C7_aggregate_idempotent [c7recA, c7recB] [c7merged] (by decide)

/-- Witness for C8: after merging `c8recB` into `c8recA`, the result's
non-numeric fields are those of `c8recA`, the first candidate for key
K8. -/
theorem C8_first_seen_frame_witness :
    (firstWithKey [c8recA, c8recB] c8merged.key).map frame = some (frame c8merged) :=
  C8_first_seen_frame [c8recA, c8recB] [c8merged] (by decide) c8merged (by decide)

end ConcreteWitnesses2

/-- With no encode maps at all, no field ever resolves. -/
theorem resolveAt_em_nil (cm : List ColMap) (iv : ℕ × ℤ) :
    resolveAt cm ([] : EncMaps) iv = none := by
  unfold resolveAt
  by_cases hv : iv.2 = -1
  · rw [if_pos hv]
  · rw [if_neg hv]
    cases cm[iv.1]? with
    | none => rfl
    | some c =>
      dsimp only
      cases c.dataId with
      | none => rfl
      | some d => rfl

/-- With no column mappings, no field ever resolves. -/
theorem resolveAt_cm_nil (em : EncMaps) (iv : ℕ × ℤ) :
    resolveAt ([] : List ColMap) em iv = none := by
  unfold resolveAt
  by_cases hv : iv.2 = -1
  · rw [if_pos hv]
  · rw [if_neg hv]
    rfl

/-- Decoding against empty encode maps yields the empty flat row. -/
theorem decodeRow_em_nil (arr : List ℤ) (cm : List ColMap) :
    decodeRow arr cm ([] : EncMaps) = [] := by
  unfold decodeRow
  have h : ∀ (l : List (ℕ × ℤ)) (obj : FlatRow),
      l.foldl (decodeStep cm ([] : EncMaps)) obj = obj := by
    intro l
    induction l with
    | nil => intro obj; rfl
    | cons iv rest ih =>
      intro obj
      rw [List.foldl_cons]
      have hstep : decodeStep cm ([] : EncMaps) obj iv = obj := by
        unfold decodeStep
        rw [resolveAt_em_nil]
      rw [hstep]
      exact ih obj
  exact h _ _

/-- Decoding against an empty column list yields the empty flat row. -/
theorem decodeRow_cm_nil (arr : List ℤ) (em : EncMaps) :
    decodeRow arr ([] : List ColMap) em = [] := by
  unfold decodeRow
  have h : ∀ (l : List (ℕ × ℤ)) (obj : FlatRow),
      l.foldl (decodeStep ([] : List ColMap) em) obj = obj := by
    intro l
    induction l with
    | nil => intro obj; rfl
    | cons iv rest ih =>
      intro obj
      rw [List.foldl_cons]
      have hstep : decodeStep ([] : List ColMap) em obj iv = obj := by
        unfold decodeStep
        rw [resolveAt_cm_nil]
      rw [hstep]
      exact ih obj
  exact h _ _

/-- Running the filter loop over empty flat rows keeps nothing and
never raises. -/
theorem filterLoop_empty_rows (dn : String) :
    ∀ (rows : List FlatRow) (acc : List FlatRow) (l0 : Option FlatRow),
    (∀ r ∈ rows, r = ([] : FlatRow)) →
    ∃ l1, filterLoop dn rows acc l0 = .ok (acc, l1) := by
  intro rows
  induction rows with
  | nil => intro acc l0 _; exact ⟨l0, rfl⟩
  | cons r rest ih =>
    intro acc l0 hall
    have hr : r = ([] : FlatRow) := hall r (by simp)
    subst hr
    have hred : filterLoop dn (([] : FlatRow) :: rest) acc l0 =
        filterLoop dn rest acc (some ([] : FlatRow)) := rfl
    rw [hred]
    exact ih acc (some ([] : FlatRow)) (fun x hx => hall x (by simp [hx]))

/-- Normalizing a list of empty flat rows yields no candidates and
never raises. -/
theorem processRows_empty_rows (dn : String) (rows : List FlatRow)
    (h : ∀ r ∈ rows, r = ([] : FlatRow)) : processRows dn rows = .ok [] := by
  obtain ⟨l1, hl⟩ := filterLoop_empty_rows dn rows [] none h
  unfold processRows
  rw [hl]
  rfl

/-- The whole transform returns the empty record list whenever every
row decodes to the empty flat row, for any payload whose `Slices`, if
present, is non-empty. -/
theorem transform_trivial_decode (dn : String) (pi : Option ItemDataJson)
    (pv : Option ViewModelJson)
    (hdec : ∀ a : List ℤ,
      decodeRow a
        ((((pv.getD ⟨none⟩).columns).getD []).map (fun c => ColMap.mk c.caption c.dataId))
        (((((pi.getD ⟨none⟩).dataStorageDTO).getD ⟨none, none⟩).encodeMaps).getD []) = [])
    (hs : noEmptySlices (Payload.mk pi pv)) :
    transform dn (Payload.mk pi pv) = .ok [] := by
  cases pi with
  | none => rfl
  | some i =>
    obtain ⟨idsd⟩ := i
    cases idsd with
    | none => rfl
    | some ds =>
      obtain ⟨dsl, dem⟩ := ds
      cases dsl with
      | none => rfl
      | some sl =>
        cases sl with
        | nil => exact absurd rfl (hs _ _ [] rfl rfl rfl)
        | cons s rest =>
          have hrows : ∀ r ∈ (s.data.getD []).filterMap
              (fun sk => match sk with
                | SliceKey.arr a => some (decodeRow a
                    ((((pv.getD ⟨none⟩).columns).getD []).map
                      (fun c => ColMap.mk c.caption c.dataId))
                    (dem.getD []))
                | SliceKey.arrBad => none
                | SliceKey.other => none), r = ([] : FlatRow) := by
            intro r hr
            rw [List.mem_filterMap] at hr
            obtain ⟨sk, _, hmap⟩ := hr
            cases sk with
            | arr a =>
              dsimp only at hmap
              injection hmap with hmap
              rw [← hmap]
              exact hdec a
            | arrBad => cases hmap
            | other => cases hmap
          have key : ∀ (rows : List FlatRow), (∀ r ∈ rows, r = ([] : FlatRow)) →
              (match processRows dn rows with
                | Except.error e => (Except.error e : Except PyErr (List Record))
                | Except.ok recs => aggregate recs) = Except.ok [] := by
            intro rows hrows2
            rw [processRows_empty_rows dn rows hrows2]
            rfl
          exact key _ hrows

/-- C5 (amended): a payload missing any expected top-level section
(`ItemData`, `DataStorageDTO`, `Slices`, `EncodeMaps`, or
`ViewModel.Columns`) does NOT make the transform raise: every access
substitutes an empty default and the transform returns an empty record
list — provided `Slices` is not a present-but-empty list, the one
payload shape that does raise (`IndexError`). -/
theorem C5_missing_sections_tolerated (dn : String) (p : Payload)
    (h : missingSection p) (hs : noEmptySlices p) :
    transform dn p = .ok [] := by
  obtain ⟨pi, pv⟩ := p
  rcases h with hnone | ⟨i, hi, hd⟩ | ⟨i, d, hi, hd, hsl⟩ | ⟨i, d, hi, hd, hem⟩
    | hvnone | ⟨v, hv, hc⟩
  · obtain rfl : pi = none := hnone
    rfl
  · obtain rfl : pi = some i := hi
    obtain ⟨idsd⟩ := i
    obtain rfl : idsd = none := hd
    rfl
  · obtain rfl : pi = some i := hi
    obtain ⟨idsd⟩ := i
    obtain rfl : idsd = some d := hd
    obtain ⟨dsl, dem⟩ := d
    obtain rfl : dsl = none := hsl
    rfl
  · obtain rfl : pi = some i := hi
    obtain ⟨idsd⟩ := i
    obtain rfl : idsd = some d := hd
    obtain ⟨dsl, dem⟩ := d
    obtain rfl : dem = none := hem
    exact transform_trivial_decode dn _ pv (fun a => decodeRow_em_nil a _) hs
  · obtain rfl : pv = none := hvnone
    exact transform_trivial_decode dn pi none (fun a => decodeRow_cm_nil a _) hs
  · obtain rfl : pv = some v := hv
    obtain ⟨vc⟩ := v
    obtain rfl : vc = none := hc
    exact transform_trivial_decode dn pi (some ⟨none⟩) (fun a => decodeRow_cm_nil a _) hs

/-- Witness for C5: the fully-empty payload is missing its sections and
the transform returns the empty list on it. -/
theorem C5_missing_sections_tolerated_witness :
    missingSection (Payload.mk none none)
    ∧ transform "2024-01-02" (Payload.mk none none) = .ok [] := by
  refine ⟨Or.inl rfl, C5_missing_sections_tolerated "2024-01-02" (Payload.mk none none)
    (Or.inl rfl) ?_⟩
  intro i d sl hi hd hsl
  cases hi

/-- C9: the CLI exits 0 on success, including the zero-records case,
where no upload outcome can change the result (the run is a no-op
success); it exits 1 on a failed connection check and on any raised
`Exception` in any step; and it exits 130 on a `KeyboardInterrupt` in
any step. -/
theorem C9_exit_codes (env : MainEnv) :
    (env.testConn = .raise → main env = 1)
    ∧ (env.testConn = .interrupt → main env = 130)
    ∧ (env.testConn = .ok false → main env = 1)
    ∧ (env.testConn = .ok true → env.scrape = .raise → main env = 1)
    ∧ (env.testConn = .ok true → env.scrape = .interrupt → main env = 130)
    ∧ (env.testConn = .ok true → env.scrape = .ok [] → main env = 0)
    ∧ (∀ data, env.testConn = .ok true → env.scrape = .ok data → data ≠ [] →
        env.upload = .raise → main env = 1)
    ∧ (∀ data, env.testConn = .ok true → env.scrape = .ok data → data ≠ [] →
        env.upload = .interrupt → main env = 130)
    ∧ (∀ data n, env.testConn = .ok true → env.scrape = .ok data → data ≠ [] →
        env.upload = .ok n → main env = 0) := by
  obtain ⟨c, s, u⟩ := env
  refine ⟨?_, ?_, ?_, ?_, ?_, ?_, ?_, ?_, ?_⟩
  · intro hc
    obtain rfl : c = Outcome.raise := hc
    rfl
  · intro hc
    obtain rfl : c = Outcome.interrupt := hc
    rfl
  · intro hc
    obtain rfl : c = Outcome.ok false := hc
    rfl
  · intro hc hsc
    obtain rfl : c = Outcome.ok true := hc
    obtain rfl : s = Outcome.raise := hsc
    rfl
  · intro hc hsc
    obtain rfl : c = Outcome.ok true := hc
    obtain rfl : s = Outcome.interrupt := hsc
    rfl
  · intro hc hsc
    obtain rfl : c = Outcome.ok true := hc
    obtain rfl : s = Outcome.ok [] := hsc
    cases u <;> rfl
  · intro data hc hsc hne hu
    obtain rfl : c = Outcome.ok true := hc
    obtain rfl : s = Outcome.ok data := hsc
    obtain rfl : u = Outcome.raise := hu
    cases data with
    | nil => exact absurd rfl hne
    | cons a t => rfl
  · intro data hc hsc hne hu
    obtain rfl : c = Outcome.ok true := hc
    obtain rfl : s = Outcome.ok data := hsc
    obtain rfl : u = Outcome.interrupt := hu
    cases data with
    | nil => exact absurd rfl hne
    | cons a t => rfl
  · intro data n hc hsc hne hu
    obtain rfl : c = Outcome.ok true := hc
    obtain rfl : s = Outcome.ok data := hsc
    obtain rfl : u = Outcome.ok n := hu
    cases data with
    | nil => exact absurd rfl hne
    | cons a t => rfl

/-- A sample nonempty scrape result for the C9 witness. -/
def c9rec : Record := Record.mk "K9" "2024-01-02" "W1" (some "SHOTTYS") 1 1 1 none "" ""

/-- Witness for C9: concrete runs hitting the 0, 1 and 130 exits,
including the zero-records success in which the upload outcome (here a
raise) is never consulted. -/
theorem C9_exit_codes_witness :
    main (MainEnv.mk (.ok true) (.ok []) .raise) = 0
    ∧ main (MainEnv.mk (.ok false) (.ok []) (.ok 0)) = 1
    ∧ main (MainEnv.mk .interrupt (.ok []) (.ok 0)) = 130
    ∧ main (MainEnv.mk (.ok true) (.ok [c9rec]) (.ok 1)) = 0 := by
  refine ⟨?_, ?_, ?_, ?_⟩
  · exact (C9_exit_codes (MainEnv.mk (.ok true) (.ok []) .raise)).2.2.2.2.2.1 rfl rfl
  · exact (C9_exit_codes (MainEnv.mk (.ok false) (.ok []) (.ok 0))).2.2.1 rfl
  · exact (C9_exit_codes (MainEnv.mk .interrupt (.ok []) (.ok 0))).2.1 rfl
  · exact (C9_exit_codes (MainEnv.mk (.ok true) (.ok [c9rec]) (.ok 1))).2.2.2.2.2.2.2.2
      [c9rec] 1 rfl rfl (by simp) rfl

end Markov
